import Mathlib

/-!
Verification of the Windows helper core of the Raycast-ShareX extension
(`src/utils/windows-helpers.ts`), embedded shallowly: text is `List Char`,
JavaScript string operations are modelled by explicit recursive functions,
and the asynchronous executor is modelled by passing the outcome of the
underlying OS call as an explicit argument.
-/

/-- Character code 34, the double-quote character used by the quote-stripping
regular expressions in the source. -/
def quoteChar : Char := Char.ofNat 34

/-- Character code 36, the dollar sign that is special in the replacement
string of JavaScript `String.prototype.replace`. -/
def dollarChar : Char := Char.ofNat 36

/-- Character code 38, ampersand: `$&` in a replacement string denotes the
matched substring. -/
def ampersandChar : Char := Char.ofNat 38

/-- Character code 96, backquote: the pattern of dollar followed by backquote
in a replacement string denotes the text before the match. -/
def backquoteChar : Char := Char.ofNat 96

/-- Character code 39, single quote: the pattern of dollar followed by single
quote in a replacement string denotes the text after the match. -/
def singleQuoteChar : Char := Char.ofNat 39

/-- The JavaScript whitespace class: the characters matched by the regex
class backslash-s and removed by `String.prototype.trim`. -/
def jsWhitespaceChars : List Char :=
  [Char.ofNat 9, Char.ofNat 10, Char.ofNat 11, Char.ofNat 12, Char.ofNat 13,
   Char.ofNat 32, Char.ofNat 160, Char.ofNat 5760,
   Char.ofNat 8192, Char.ofNat 8193, Char.ofNat 8194, Char.ofNat 8195,
   Char.ofNat 8196, Char.ofNat 8197, Char.ofNat 8198, Char.ofNat 8199,
   Char.ofNat 8200, Char.ofNat 8201, Char.ofNat 8202,
   Char.ofNat 8232, Char.ofNat 8233, Char.ofNat 8239, Char.ofNat 8287,
   Char.ofNat 12288, Char.ofNat 65279]

/-- Whether a character counts as whitespace for JavaScript `trim` and the
regex classes used by the source. -/
def isJsWhitespace (c : Char) : Bool :=
  jsWhitespaceChars.contains c

/-- JavaScript `String.prototype.trim`: remove leading and trailing
whitespace. -/
def jsTrim (s : List Char) : List Char :=
  ((s.dropWhile isJsWhitespace).reverse.dropWhile isJsWhitespace).reverse

/-- Split a character list at every occurrence of the separator character,
as JavaScript `split` with a one-character separator: the result always has
one more segment than there are separators, so it is never empty. -/
def splitOnChar (sep : Char) : List Char → List (List Char)
  | [] => [[]]
  | c :: rest =>
    match splitOnChar sep rest with
    | [] => if c = sep then [[], []] else [[c]]
    | seg :: segs => if c = sep then [] :: seg :: segs else (c :: seg) :: segs

/-- Remove a single trailing carriage-return character, if present. -/
def dropOneTrailingCR (line : List Char) : List Char :=
  match line.reverse with
  | [] => line
  | c :: restRev => if c = Char.ofNat 13 then restRev.reverse else line

/-- Apply a function to every element of a list except the last one. -/
def mapExceptLast (f : List Char → List Char) : List (List Char) → List (List Char)
  | [] => []
  | [seg] => [seg]
  | seg :: seg2 :: rest => f seg :: mapExceptLast f (seg2 :: rest)

/-- JavaScript `split` on the regex matching an optional carriage return
followed by a newline: split on the newline character, and strip the single
carriage return that the regex absorbs from the end of every segment that
was actually followed by a newline (hence not from the final segment). -/
def splitLinesJs (s : List Char) : List (List Char) :=
  mapExceptLast dropOneTrailingCR (splitOnChar (Char.ofNat 10) s)

/-- The global-replace of the double-quote character by the empty string,
as in the source expression that deletes every double quote of a line. -/
def removeQuotes (s : List Char) : List Char :=
  s.filter (fun c => c != quoteChar)

/-- `parseWindowsCSV` from `windows-helpers.ts`: trim the whole output,
split it into lines, delete every double quote of each line, split each
line on commas, and keep exactly the rows whose field list is non-empty
and whose first field is a truthy (non-empty) string. -/
def parseWindowsCSV (csvOutput : List Char) : List (List (List Char)) :=
  ((splitLinesJs (jsTrim csvOutput)).map
      (fun line => splitOnChar (Char.ofNat 44) (removeQuotes line))).filter
    (fun parts =>
      match parts with
      | [] => false
      | firstField :: _ => decide (firstField ≠ []))

/-- Character code 92, the backslash character. -/
def backslashChar : Char := Char.ofNat 92

/-- Character code 83, the capital letter S. -/
def capitalSChar : Char := Char.ofNat 83

/-- Fuel-indexed scanner for the source's token regex, applied globally left
to right.  The first alternative is a double-quoted span of one or more
non-quote characters.  The second alternative, as written in the source, is
a doubled backslash followed by S and a quantifier inside a regex literal:
the doubled backslash is an identity escape matching one literal backslash
character, so the alternative matches a literal backslash followed by one or
more capital S characters — not the non-whitespace class.  At a position
where neither alternative matches the scan advances by one character.  The
fuel only serves termination; it strictly exceeds the list length at every
call from `tokenizeCommand`. -/
def tokenizeGo : Nat → List Char → List (List Char)
  | 0, _ => []
  | _ + 1, [] => []
  | fuel + 1, c :: rest =>
    if c = quoteChar then
      match rest.dropWhile (fun d => d != quoteChar) with
      | _ :: restAfterClose =>
        if (rest.takeWhile (fun d => d != quoteChar)).isEmpty then tokenizeGo fuel rest
        else
          (quoteChar :: rest.takeWhile (fun d => d != quoteChar) ++ [quoteChar])
            :: tokenizeGo fuel restAfterClose
      | [] => tokenizeGo fuel rest
    else if c = backslashChar then
      if (rest.takeWhile (fun d => d == capitalSChar)).isEmpty then tokenizeGo fuel rest
      else
        (backslashChar :: rest.takeWhile (fun d => d == capitalSChar))
          :: tokenizeGo fuel (rest.dropWhile (fun d => d == capitalSChar))
    else tokenizeGo fuel rest

/-- The tokenization step of `parseCustomCommand`: all matches of the token
regex over the command string (the source's match call, with the null result
defaulted to an empty list).  Because the second regex alternative matches a
literal backslash followed by capital S characters, a plain unquoted word is
never a token. -/
def tokenizeCommand (command : List Char) : List (List Char) :=
  tokenizeGo (command.length + 1) command

/-- Index of the first occurrence of `pat` in a list, as the search step of
JavaScript `String.prototype.replace` with a string pattern. -/
def findMatchIdx (pat : List Char) : List Char → Option Nat
  | [] => if pat.isEmpty then some 0 else none
  | c :: rest =>
    if pat.isPrefixOf (c :: rest) then some 0
    else (findMatchIdx pat rest).map (fun i => i + 1)

/-- The replacement-string expansion of JavaScript `replace`: dollar-dollar
is a literal dollar, dollar-ampersand inserts the matched text, dollar
followed by backquote inserts the text before the match, dollar followed by
single quote inserts the text after the match; any other dollar is literal. -/
def getSubstitution (matched before after : List Char) : List Char → List Char
  | [] => []
  | [c] => [c]
  | c :: d :: rest =>
    if c = dollarChar then
      if d = dollarChar then dollarChar :: getSubstitution matched before after rest
      else if d = ampersandChar then matched ++ getSubstitution matched before after rest
      else if d = backquoteChar then before ++ getSubstitution matched before after rest
      else if d = singleQuoteChar then after ++ getSubstitution matched before after rest
      else c :: getSubstitution matched before after (d :: rest)
    else c :: getSubstitution matched before after (d :: rest)

/-- JavaScript `String.prototype.replace` with a plain string pattern: the
first occurrence of the pattern, and only the first, is replaced by the
expanded replacement string; a string with no occurrence is unchanged. -/
def jsReplaceFirst (s pat repl : List Char) : List Char :=
  match findMatchIdx pat s with
  | none => s
  | some i =>
    s.take i ++ getSubstitution pat (s.take i) (s.drop (i + pat.length)) repl
      ++ s.drop (i + pat.length)

/-- The replacement loop of `parseCustomCommand`: one `replace` call per
binding, in binding order, threaded through the processed argument. -/
def applyReplacements (replacements : List (List Char × List Char))
    (arg : List Char) : List Char :=
  replacements.foldl (fun processedArg pv => jsReplaceFirst processedArg pv.1 pv.2) arg

/-- The executable-plus-arguments record produced by `parseCustomCommand`. -/
structure CustomCommand where
  executable : List Char
  args : List (List Char)
deriving DecidableEq

/-- The message of the error thrown by `parseCustomCommand` on an empty
token list. -/
def invalidCommandFormatMessage : List Char :=
  "Invalid command format".data

/-- `parseCustomCommand` from `windows-helpers.ts`: tokenize the command;
with zero tokens throw the invalid-format error; otherwise the first token
with all quotes deleted is the executable, and every later token, quotes
deleted, has each binding's placeholder replaced (one `replace` call per
binding) to form the argument list. -/
def parseCustomCommand (command : List Char)
    (replacements : List (List Char × List Char)) :
    Except (List Char) CustomCommand :=
  match tokenizeCommand command with
  | [] => Except.error invalidCommandFormatMessage
  | first :: restTokens =>
    Except.ok
      (CustomCommand.mk (removeQuotes first)
        (restTokens.map (fun arg => applyReplacements replacements (removeQuotes arg))))

/-- A JavaScript value thrown by the promisified `exec` on failure, as far
as the source inspects it: whether it is an `Error` instance, whether it has
a `code` property, that code, and its message. -/
structure JsExecFailure where
  isErrorInstance : Bool
  hasCodeProp : Bool
  code : List Char
  message : List Char
deriving DecidableEq

/-- What `executeWindowsCommand` throws: either the fresh `Error` it
constructs itself, or the original failure rethrown unchanged. -/
inductive ExecThrow where
  | newError (msg : List Char)
  | rethrown (e : JsExecFailure)
deriving DecidableEq

/-- The message of the fresh error `executeWindowsCommand` constructs for a
missing executable. -/
def commandNotFoundMessage : List Char :=
  "Command not found. Please ensure the tool is installed and in PATH.".data

/-- The condition of the catch block of `executeWindowsCommand`: the thrown
value is an `Error` with a `code` property equal to the string ENOENT. -/
def isEnoentLaunchFailure (e : JsExecFailure) : Bool :=
  e.isErrorInstance && e.hasCodeProp && decide (e.code = "ENOENT".data)

/-- `executeWindowsCommand` from `windows-helpers.ts`, as a function of the
outcome of the underlying `exec` of the encoding-prefixed command line: on
success return the trimmed standard output; on an ENOENT `Error` throw the
fresh command-not-found error; on every other failure rethrow it unchanged. -/
def executeWindowsCommand (execResult : Except JsExecFailure (List Char)) :
    Except ExecThrow (List Char) :=
  match execResult with
  | Except.ok stdout => Except.ok (jsTrim stdout)
  | Except.error e =>
    if isEnoentLaunchFailure e then Except.error (ExecThrow.newError commandNotFoundMessage)
    else Except.error (ExecThrow.rethrown e)

/-- `isToolAvailable` from `windows-helpers.ts`, as a function of the
outcome of executing the probe command: true when `executeWindowsCommand`
returns normally, false when it throws; the exception never escapes. -/
def isToolAvailable (probeResult : Except JsExecFailure (List Char)) : Bool :=
  match executeWindowsCommand probeResult with
  | Except.ok _ => true
  | Except.error _ => false

/-- One row of `getProcessList`. -/
structure ProcessRecord where
  name : List Char
  pid : List Char
  sessionName : List Char
  sessionNumber : List Char
  memoryUsage : List Char
deriving DecidableEq

/-- JavaScript indexing with empty-string default, as in the source's
field-access-or-empty expressions: a missing index yields the empty string,
and the falsy empty string also yields the empty string. -/
def fieldOrEmpty (parts : List (List Char)) (i : Nat) : List Char :=
  (parts[i]?).getD []

/-- The parsing stage of `getProcessList` from `windows-helpers.ts`, as a
function of the (already executed) tasklist CSV output: each row of
`parseWindowsCSV` maps positionally onto a `ProcessRecord`. -/
def getProcessList (stdout : List Char) : List ProcessRecord :=
  (parseWindowsCSV stdout).map
    (fun parts =>
      ProcessRecord.mk (fieldOrEmpty parts 0) (fieldOrEmpty parts 1)
        (fieldOrEmpty parts 2) (fieldOrEmpty parts 3) (fieldOrEmpty parts 4))

/-- A value thrown by a processor inside `processItemsWithRecovery`: either
an `Error` carrying a message, or any other thrown value. -/
inductive JsThrown where
  | errorObj (message : List Char)
  | nonError

/-- The message recorded for a thrown value, as in the source: an `Error`
contributes its message, anything else the generic unknown-error string. -/
def thrownMessage : JsThrown → List Char
  | JsThrown.errorObj m => m
  | JsThrown.nonError => "Unknown error".data

/-- The accumulator record of `processItemsWithRecovery`. -/
structure RecoveryResult where
  successful : Nat
  failed : Nat
  errors : List (List Char)
deriving DecidableEq

/-- The loop of `processItemsWithRecovery`: process the remaining items at
one-based positions starting after `i`, threading the accumulator, and also
return the list of progress invocations (completed, total) in order. -/
def processGo {α : Type} (proc : α → Except JsThrown Unit) (total : Nat) :
    List α → Nat → RecoveryResult → RecoveryResult × List (Nat × Nat)
  | [], _, res => (res, [])
  | x :: xs, i, res =>
    let resNext :=
      match proc x with
      | Except.ok _ => RecoveryResult.mk (res.successful + 1) res.failed res.errors
      | Except.error e =>
        RecoveryResult.mk res.successful (res.failed + 1)
          (res.errors ++ [thrownMessage e])
    let next := processGo proc total xs (i + 1) resNext
    (next.1, (i + 1, total) :: next.2)

/-- `processItemsWithRecovery` from `windows-helpers.ts`, with the processor
modelled as a function returning success or a thrown value, and the optional
progress callback modelled by returning the sequence of (completed, total)
invocations it would receive. -/
def processItemsWithRecovery {α : Type} (items : List α)
    (proc : α → Except JsThrown Unit) : RecoveryResult × List (Nat × Nat) :=
  processGo proc items.length items 0 (RecoveryResult.mk 0 0 [])

/-- The claim's reading of the table parser, for comparison: a row is kept
exactly when its first field is non-empty after trimming. -/
def claimParseDelimitedTableTrimmed (raw : List Char) : List (List (List Char)) :=
  (splitLinesJs (jsTrim raw)).filterMap
    (fun line =>
      match splitOnChar (Char.ofNat 44) (removeQuotes line) with
      | [] => none
      | f :: rest => if jsTrim f = [] then none else some (f :: rest))

/-- The amended reading of the table parser: a row is kept exactly when its
first field is non-empty, with no trimming. -/
def specParseDelimitedTable (raw : List Char) : List (List (List Char)) :=
  (splitLinesJs (jsTrim raw)).filterMap
    (fun line =>
      match splitOnChar (Char.ofNat 44) (removeQuotes line) with
      | [] => none
      | f :: rest => if f = [] then none else some (f :: rest))

/-- Whether a replacement value is free of the dollar character, so that
the replacement-string expansion leaves it unchanged. -/
def noDollar (v : List Char) : Bool :=
  v.all (fun c => c != dollarChar)

lemma isPrefixOf_append_self (p t : List Char) : p.isPrefixOf (p ++ t) = true := by
  induction p with
  | nil => simp
  | cons a as ih => simp [List.isPrefixOf_cons₂, ih]

lemma findMatchIdx_append_self (p t : List Char) (hp : p ≠ []) :
    findMatchIdx p (p ++ t) = some 0 := by
  cases p with
  | nil => exact absurd rfl hp
  | cons a as => simp [findMatchIdx, isPrefixOf_append_self]

lemma getSubstitution_no_dollar (m b a : List Char) :
    ∀ v : List Char, noDollar v = true → getSubstitution m b a v = v := by
  intro v
  induction v with
  | nil => intro _; rfl
  | cons c rest ih =>
    intro hv
    simp only [noDollar, List.all_cons, Bool.and_eq_true] at hv
    obtain ⟨hc, hrest⟩ := hv
    rw [bne_iff_ne] at hc
    cases rest with
    | nil => rfl
    | cons d rest2 =>
      simp only [getSubstitution]
      rw [if_neg hc]
      exact congrArg (List.cons c) (ih hrest)

lemma drop_length_append (l t : List Char) : (l ++ t).drop l.length = t := by
  induction l with
  | nil => rfl
  | cons a as ih => simp [ih]

lemma filter_map_first_field (g : List Char → List (List Char)) :
    ∀ lines : List (List Char),
      ((lines.map g).filter
          (fun parts =>
            match parts with
            | [] => false
            | firstField :: _ => decide (firstField ≠ [])))
        = lines.filterMap
            (fun line =>
              match g line with
              | [] => none
              | f :: rest => if f = [] then none else some (f :: rest)) := by
  intro lines
  induction lines with
  | nil => rfl
  | cons l ls ih =>
    simp only [List.map_cons, List.filter_cons, List.filterMap_cons]
    cases hg : g l with
    | nil => simpa [hg] using ih
    | cons f rest =>
      by_cases hf : f = []
      · simpa [hg, hf] using ih
      · simpa [hg, hf] using ih

lemma processGo_counts {α : Type} (proc : α → Except JsThrown Unit) (total : Nat) :
    ∀ (xs : List α) (i : Nat) (res : RecoveryResult),
      (processGo proc total xs i res).1.successful + (processGo proc total xs i res).1.failed
          = res.successful + res.failed + xs.length
        ∧ (processGo proc total xs i res).1.errors.length + res.failed
          = (processGo proc total xs i res).1.failed + res.errors.length := by
  intro xs
  induction xs with
  | nil =>
    intro i res
    dsimp only [processGo, List.length_nil]
    constructor <;> omega
  | cons x xs ih =>
    intro i res
    cases hp : proc x with
    | ok u =>
      have h := ih (i + 1) (RecoveryResult.mk (res.successful + 1) res.failed res.errors)
      simp only [processGo, hp, List.length_cons]
      dsimp only at h ⊢
      obtain ⟨h1, h2⟩ := h
      constructor <;> omega
    | error e =>
      have h := ih (i + 1)
        (RecoveryResult.mk res.successful (res.failed + 1) (res.errors ++ [thrownMessage e]))
      simp only [processGo, hp, List.length_cons]
      dsimp only at h ⊢
      obtain ⟨h1, h2⟩ := h
      simp only [List.length_append, List.length_cons, List.length_nil] at h2
      constructor <;> omega

lemma processGo_trace {α : Type} (proc : α → Except JsThrown Unit) (total : Nat) :
    ∀ (xs : List α) (i : Nat) (res : RecoveryResult),
      (processGo proc total xs i res).2
        = (List.range xs.length).map (fun k => (i + k + 1, total)) := by
  intro xs
  induction xs with
  | nil => intro i res; simp [processGo]
  | cons x xs ih =>
    intro i res
    cases hp : proc x with
    | ok u =>
      simp only [processGo, hp, List.length_cons]
      rw [ih]
      rw [List.range_succ_eq_map, List.map_cons, List.map_map]
      congr 1
      refine List.map_congr_left (fun a _ => ?_)
      simp only [Function.comp_apply, Nat.succ_eq_add_one, Prod.mk.injEq]
      exact ⟨by omega, trivial⟩
    | error e =>
      simp only [processGo, hp, List.length_cons]
      rw [ih]
      rw [List.range_succ_eq_map, List.map_cons, List.map_map]
      congr 1
      refine List.map_congr_left (fun a _ => ?_)
      simp only [Function.comp_apply, Nat.succ_eq_add_one, Prod.mk.injEq]
      exact ⟨by omega, trivial⟩

/-- C1: for every item sequence of length N and every operation, the outcome
returned by `processItemsWithRecovery` satisfies successful + failed = N and
errors.length = failed, regardless of how many items fail. -/
theorem bulk_runner_counts_invariant :
    ∀ {α : Type} (items : List α) (proc : α → Except JsThrown Unit),
      (processItemsWithRecovery items proc).1.successful
            + (processItemsWithRecovery items proc).1.failed = items.length
        ∧ (processItemsWithRecovery items proc).1.errors.length
            = (processItemsWithRecovery items proc).1.failed := by
  intro α items proc
  have h := processGo_counts proc items.length items 0 (RecoveryResult.mk 0 0 [])
  unfold processItemsWithRecovery
  dsimp only at h
  obtain ⟨h1, h2⟩ := h
  simp only [List.length_nil] at h2
  constructor <;> omega

/-- C2, counterexample: `parseWindowsCSV` does not trim the first field
before deciding whether to keep a row; on the input with a second line whose
first field is a single space, it keeps that row, while the claimed
trimming-based rule drops it. -/
theorem csv_first_field_trimming_refuted :
    parseWindowsCSV ("a,b\n ,x".data)
      ≠ claimParseDelimitedTableTrimmed ("a,b\n ,x".data) := by decide

/-- C2, amended: `parseWindowsCSV` returns exactly those lines whose first
field, after quote-stripping and comma-splitting, is non-empty (with no
trimming), dropping a line entirely when that first field is the empty
string, and the remaining rows appear in their original relative order. -/
theorem csv_keeps_rows_with_nonempty_first_field :
    ∀ raw : List Char, parseWindowsCSV raw = specParseDelimitedTable raw := by
  intro raw
  unfold parseWindowsCSV specParseDelimitedTable
  exact filter_map_first_field (fun line => splitOnChar (Char.ofNat 44) (removeQuotes line))
    (splitLinesJs (jsTrim raw))

/-- C3, counterexample: on a template of two double-quoted tokens (which the
source regex does tokenize), with the single binding of a placeholder to a
value, the argument token holding two occurrences of the placeholder keeps
its second occurrence: the compiled argument still contains the placeholder
(at index one) and is not the claimed fully-substituted form. -/
theorem template_substitution_every_occurrence_refuted :
    parseCustomCommand ("\"cmd\" \"%s%s\"".data) [("%s".data, "x".data)]
        = Except.ok (CustomCommand.mk ("cmd".data) ["x%s".data])
      ∧ findMatchIdx ("%s".data) ("x%s".data) = some 1
      ∧ ("x%s".data : List Char) ≠ "xx".data :=
  ⟨rfl, rfl, by decide⟩

/-- C3, amended: the template engine substitutes, in every token after the
first, only the first occurrence of each registered placeholder (bindings
applied in order) with its caller-supplied value, leaving later occurrences
of that placeholder in place, and never substitutes placeholders into the
executable name: the executable and the pre-substitution arguments agree
with a run under an empty binding list, each argument being the replacement
fold over the quote-stripped token; and a first-occurrence replacement of a
non-empty placeholder standing twice in a row leaves the second occurrence
untouched. -/
theorem template_substitution_first_occurrence_only :
    (∀ (cmd : List Char) (repl : List (List Char × List Char)) (s s0 : CustomCommand),
        parseCustomCommand cmd repl = Except.ok s →
        parseCustomCommand cmd [] = Except.ok s0 →
        s.executable = s0.executable ∧ s.args = s0.args.map (applyReplacements repl))
      ∧ (∀ (p v r : List Char), p ≠ [] → noDollar v = true →
        jsReplaceFirst (p ++ p ++ r) p v = v ++ p ++ r) := by
  constructor
  · intro cmd repl s s0 hs hs0
    unfold parseCustomCommand at hs hs0
    cases htok : tokenizeCommand cmd with
    | nil =>
      rw [htok] at hs
      exact absurd hs (by simp)
    | cons f rest =>
      rw [htok] at hs hs0
      injection hs with hs
      injection hs0 with hs0
      subst hs
      subst hs0
      constructor
      · rfl
      · simp [List.map_map, Function.comp, applyReplacements]
  · intro p v r hp hv
    have hidx : findMatchIdx p (p ++ (p ++ r)) = some 0 := findMatchIdx_append_self p (p ++ r) hp
    simp only [List.append_assoc]
    unfold jsReplaceFirst
    rw [hidx]
    simp [getSubstitution_no_dollar p [] (p ++ r) v hv, Nat.zero_add, drop_length_append]

/-- C3, witness for the amended theorem: both parts applied at concrete
inputs, every hypothesis discharged there. -/
theorem template_substitution_first_occurrence_only_witness :
    ((CustomCommand.mk ("cmd".data) ["x%s".data]).executable
          = (CustomCommand.mk ("cmd".data) ["%s%s".data]).executable
        ∧ (CustomCommand.mk ("cmd".data) ["x%s".data]).args
          = ((CustomCommand.mk ("cmd".data) ["%s%s".data]).args).map
              (applyReplacements [("%s".data, "x".data)]))
      ∧ jsReplaceFirst ("ab".data ++ "ab".data ++ "c".data) ("ab".data) ("z".data)
          = "z".data ++ "ab".data ++ "c".data :=
  ⟨template_substitution_first_occurrence_only.1 ("\"cmd\" \"%s%s\"".data)
      [("%s".data, "x".data)]
      (CustomCommand.mk ("cmd".data) ["x%s".data])
      (CustomCommand.mk ("cmd".data) ["%s%s".data]) rfl rfl,
    template_substitution_first_occurrence_only.2 ("ab".data) ("z".data) ("c".data)
      (by decide) (by decide)⟩

/-- C4, code bug: the claim (and the spec's testable property) says that
compiling the template of notepad followed by a double-quoted placeholder,
with the placeholder bound to a path containing a space, yields executable
notepad.exe and that path as the single argument.  The source's tokenizer
regex, through its doubled backslash, never matches the unquoted word
notepad.exe, so the only token is the quoted placeholder span: the code
actually returns the quote-stripped placeholder as the executable, with an
empty argument list and no substitution applied at all.  This theorem
evaluates the faithful embedding at the claim's input, exhibiting the
divergence. -/
theorem template_compile_quoted_placeholder_actual :
    parseCustomCommand ("notepad.exe \"%s\"".data) [("%s".data, "C:/a b.txt".data)]
      = Except.ok (CustomCommand.mk ("%s".data) ([] : List (List Char))) := rfl

/-- C5, counterexample: on the headerless tasklist CSV row, the claimed
record with memory usage of fifteen thousand K is not what `getProcessList`
returns, because the comma inside the quoted fifth field splits it. -/
theorem process_list_embedded_comma_refuted :
    getProcessList ("\"notepad.exe\",\"1234\",\"Console\",\"1\",\"15,000 K\"".data)
      ≠ [ProcessRecord.mk ("notepad.exe".data) ("1234".data) ("Console".data)
          ("1".data) ("15,000 K".data)] := by decide

/-- C5, amended: on that row `getProcessList` yields exactly one record with
name notepad.exe, pid 1234, session name Console, session number 1, and
memory usage 15 — the quoted fifth field is split at its embedded comma and
the overflow beyond position four is discarded. -/
theorem process_list_embedded_comma_actual :
    getProcessList ("\"notepad.exe\",\"1234\",\"Console\",\"1\",\"15,000 K\"".data)
      = [ProcessRecord.mk ("notepad.exe".data) ("1234".data) ("Console".data)
          ("1".data) ("15".data)] := by decide

/-- C6, counterexample: a permission-refusal launch failure (code EACCES)
is not mapped to any classified kind; `executeWindowsCommand` propagates the
original failure unclassified. -/
theorem launch_failure_permission_unclassified :
    executeWindowsCommand
        (Except.error (JsExecFailure.mk true true ("EACCES".data) ("spawn EACCES".data)))
      = Except.error (ExecThrow.rethrown
          (JsExecFailure.mk true true ("EACCES".data) ("spawn EACCES".data))) := rfl

/-- C6, amended: `executeWindowsCommand` classifies exactly one launch
failure kind — an ENOENT error becomes the fresh command-not-found error —
and every other failure, permission refusals included, is rethrown
unclassified. -/
theorem launch_failure_classification :
    ∀ e : JsExecFailure,
      (isEnoentLaunchFailure e = true →
          executeWindowsCommand (Except.error e)
            = Except.error (ExecThrow.newError commandNotFoundMessage))
        ∧ (isEnoentLaunchFailure e = false →
          executeWindowsCommand (Except.error e)
            = Except.error (ExecThrow.rethrown e)) := by
  intro e
  constructor <;> intro h <;> simp [executeWindowsCommand, h]

/-- C6, witness: both branches of the classification applied at concrete
failures, the hypothesis discharged by computation. -/
theorem launch_failure_classification_witness :
    executeWindowsCommand
          (Except.error (JsExecFailure.mk true true ("ENOENT".data) ("spawn ENOENT".data)))
        = Except.error (ExecThrow.newError commandNotFoundMessage)
      ∧ executeWindowsCommand (Except.error (JsExecFailure.mk false false [] []))
        = Except.error (ExecThrow.rethrown (JsExecFailure.mk false false [] [])) :=
  ⟨(launch_failure_classification
        (JsExecFailure.mk true true ("ENOENT".data) ("spawn ENOENT".data))).1 rfl,
    (launch_failure_classification (JsExecFailure.mk false false [] [])).2 rfl⟩

/-- C7: for every item sequence with a progress callback, the bulk runner
invokes the callback exactly once after each item, the completed argument
running 1, 2, ..., N in order and the total argument equal to N, regardless
of each item's outcome: the recorded trace of `processItemsWithRecovery`. -/
theorem bulk_runner_progress_trace :
    ∀ {α : Type} (items : List α) (proc : α → Except JsThrown Unit),
      (processItemsWithRecovery items proc).2
        = (List.range items.length).map (fun k => (k + 1, items.length)) := by
  intro α items proc
  have h := processGo_trace proc items.length items 0 (RecoveryResult.mk 0 0 [])
  unfold processItemsWithRecovery
  rw [h]
  refine List.map_congr_left (fun a _ => ?_)
  simp only [Prod.mk.injEq]
  exact ⟨by omega, trivial⟩

/-- C8: `parseCustomCommand` fails with the invalid-command-format error
exactly when tokenization yields zero tokens (for example on the empty
string), and returns a compiled command for every template with at least
one token. -/
theorem template_empty_tokens_error :
    ∀ (cmd : List Char) (repl : List (List Char × List Char)),
      (tokenizeCommand cmd = [] →
          parseCustomCommand cmd repl = Except.error invalidCommandFormatMessage)
        ∧ (tokenizeCommand cmd ≠ [] →
          ∃ spec, parseCustomCommand cmd repl = Except.ok spec) := by
  intro cmd repl
  constructor
  · intro h
    unfold parseCustomCommand
    rw [h]
  · intro h
    unfold parseCustomCommand
    cases htok : tokenizeCommand cmd with
    | nil => exact absurd htok h
    | cons f rest => exact ⟨_, rfl⟩

/-- C8, witness: the empty template fails with the invalid-command-format
error, and a template consisting of one double-quoted token compiles. -/
theorem template_empty_tokens_error_witness :
    parseCustomCommand ([] : List Char) []
        = Except.error invalidCommandFormatMessage
      ∧ ∃ spec, parseCustomCommand ("\"x\"".data) [] = Except.ok spec :=
  ⟨(template_empty_tokens_error [] []).1 rfl,
    (template_empty_tokens_error ("\"x\"".data) []).2 (by decide)⟩

/-- C9: on the empty item sequence, `processItemsWithRecovery` returns zero
successes, zero failures and an empty error list, and never invokes the
progress callback; no error is raised for zero work. -/
theorem bulk_runner_empty_sequence :
    ∀ {α : Type} (proc : α → Except JsThrown Unit),
      processItemsWithRecovery ([] : List α) proc
        = (RecoveryResult.mk 0 0 [], ([] : List (Nat × Nat))) := by
  intro α proc
  rfl

/-- C10: `isToolAvailable` is a total boolean function of the probe outcome:
it returns true whenever the probe command succeeds and false on every
failure of the probe, never propagating the exception. -/
theorem tool_availability_probe_boolean :
    ∀ (stdout : List Char) (e : JsExecFailure),
      isToolAvailable (Except.ok stdout) = true
        ∧ isToolAvailable (Except.error e) = false := by
  intro stdout e
  constructor
  · rfl
  · cases h : isEnoentLaunchFailure e <;> simp [isToolAvailable, executeWindowsCommand, h]
